import Mathlib

/-!
Verification development for the WhatsApp chatbot repository.

The definitions below are a shallow embedding of the session store and
webhook flow of src/index.js, the completion client of
src/openai-client.js, and the command engine, safety filter and poll
registry of src/commands_Version3.js.  JavaScript strings are modelled
as Lean String, the in-memory Map objects as association lists, and the
asynchronous send effects as an explicit effect trace.  The random and
time based poll identifier is passed in as a parameter of the poll
creation step.
-/

/- ---------- generic JS-style string helpers ---------- -/

/-- JS list membership of one char list as a contiguous prefix of another. -/
def listStarts : List Char → List Char → Bool
  | _, [] => true
  | [], _ :: _ => false
  | a :: as, b :: bs => a = b && listStarts as bs

/-- JS String.prototype.includes: the needle occurs contiguously in the hay. -/
def seqHas (hay needle : List Char) : Bool :=
  match hay with
  | [] => needle.isEmpty
  | _ :: rest => listStarts hay needle || seqHas rest needle

/-- Models text.toLowerCase() on the ASCII range. -/
def jsToLower (s : String) : String :=
  String.mk (s.data.map Char.toLower)

/-- Models text.trim(): strip whitespace from both ends. -/
def jsTrim (s : String) : String :=
  String.mk (((s.data.dropWhile Char.isWhitespace).reverse.dropWhile Char.isWhitespace).reverse)

/-- Models hay.includes(needle) on strings. -/
def strIncludes (hay needle : String) : Bool :=
  seqHas hay.data needle.data

/-- Models s.startsWith(p). -/
def strStarts (s p : String) : Bool :=
  listStarts s.data p.data

/-- Models s.slice(n) for a nonnegative n, counting chars. -/
def strDrop (s : String) (n : Nat) : String :=
  String.mk (s.data.drop n)

mutual

/-- Helper of jsSplitWs: accumulating a token. -/
def jsSplitWsAux : List Char → List Char → List String
  | [], acc => [String.mk acc.reverse]
  | c :: cs, acc =>
    if c.isWhitespace then String.mk acc.reverse :: jsSplitWsStrip cs
    else jsSplitWsAux cs (c :: acc)

/-- Helper of jsSplitWs: inside a whitespace run. -/
def jsSplitWsStrip : List Char → List String
  | [] => [String.mk []]
  | c :: cs => if c.isWhitespace then jsSplitWsStrip cs else jsSplitWsAux cs [c]

end

/-- Models s.split on a regex matching runs of whitespace, as in JS. -/
def jsSplitWs (s : String) : List String :=
  jsSplitWsAux s.data []

/-- Models arr.join with a single space separator. -/
def joinSpace : List String → String
  | [] => String.mk []
  | [a] => a
  | a :: b :: rest => a ++ String.mk [' '] ++ joinSpace (b :: rest)

/-- Models s.replace(pat, repl) which replaces only the first occurrence. -/
def replaceFirstOcc (pat repl : List Char) : List Char → List Char
  | [] => []
  | c :: cs =>
    if listStarts (c :: cs) pat then repl ++ (c :: cs).drop pat.length
    else c :: replaceFirstOcc pat repl cs

/-- Models String(x).replace of all non-digits by nothing, from normalizeBare. -/
def normalizeBare (s : String) : String :=
  String.mk (s.data.filter Char.isDigit)

/- ---------- association lists modelling JS Map ---------- -/

/-- Lookup in an association list, modelling Map.get. -/
def alistGet {α : Type} : List (String × α) → String → Option α
  | [], _ => none
  | (k, v) :: rest, u => if k = u then some v else alistGet rest u

/-- Update or insert in an association list, modelling Map.set. -/
def alistSet {α : Type} : List (String × α) → String → α → List (String × α)
  | [], u, v => [(u, v)]
  | (k, v0) :: rest, u, v =>
    if k = u then (k, v) :: rest else (k, v0) :: alistSet rest u v

/- ---------- session store (src/index.js lines 147-218) ---------- -/

inductive Role where
  | system
  | user
  | assistant
deriving DecidableEq

structure Message where
  role : Role
  content : String
deriving DecidableEq

structure Session where
  messages : List Message
  lastSeen : Nat
deriving DecidableEq

/-- Association list keyed by user identity, modelling the store Map. -/
abbrev Store : Type := List (String × Session)

/-- The persona preamble installed by the ensure-session step. -/
def SYSTEM_PROMPT : String :=
  "You are a helpful WhatsApp assistant. Keep replies concise and friendly. Use casual, short messages suitable for WhatsApp."

/-- The single system message every fresh session starts with. -/
def sysMsg : Message := ⟨Role.system, SYSTEM_PROMPT⟩

/-- Models rest.slice(-maxMessages); JS slice(-0) returns the whole array. -/
def jsSliceLast {α : Type} (n : Nat) (l : List α) : List α :=
  if n = 0 then l else l.drop (l.length - n)

/-- Models the trim step: keep messages[0] and the newest maxMessages of the rest. -/
def trimMessages (maxM : Nat) (msgs : List Message) : List Message :=
  match msgs with
  | [] => []
  | sys :: rest => sys :: jsSliceLast maxM rest

/-- Models the ensure-session step creating the session on first reference. -/
def ensureSession (st : Store) (u : String) (now : Nat) : Store :=
  match alistGet st u with
  | some _ => st
  | none => alistSet st u ⟨[sysMsg], now⟩

/-- Models appendUserMessage: no-op on falsy text, else ensure, push, stamp, trim. -/
def appendUserMessage (maxM : Nat) (st : Store) (u text : String) (now : Nat) : Store :=
  if text = String.mk [] then st
  else
    let st1 := ensureSession st u now
    let s := (alistGet st1 u).getD ⟨[], 0⟩
    alistSet st1 u ⟨trimMessages maxM (s.messages ++ [⟨Role.user, text⟩]), now⟩

/-- Models appendAssistantMessage analogously. -/
def appendAssistantMessage (maxM : Nat) (st : Store) (u text : String) (now : Nat) : Store :=
  if text = String.mk [] then st
  else
    let st1 := ensureSession st u now
    let s := (alistGet st1 u).getD ⟨[], 0⟩
    alistSet st1 u ⟨trimMessages maxM (s.messages ++ [⟨Role.assistant, text⟩]), now⟩

/-- Models getConversationForOpenAI: ensure the session, return a copy of its messages. -/
def getConversationForOpenAI (st : Store) (u : String) (now : Nat) : Store × List Message :=
  let st1 := ensureSession st u now
  (st1, ((alistGet st1 u).getD ⟨[], 0⟩).messages)

/- ---------- safety filter (src/commands_Version3.js lines 54-66) ---------- -/

/-- The configured prohibited-term denylist. -/
def PROFANITY : List String := ["badword1", "badword2"]

/-- Models containsProfanity: case-insensitive substring match on the denylist. -/
def containsProfanity (text : String) : Bool :=
  if text = String.mk [] then false
  else PROFANITY.any (fun p => strIncludes (jsToLower text) p)

/-- The configured protected-class signal terms. -/
def PROTECTED : List String :=
  ["race", "religion", "muslim", "jew", "black", "white", "asian", "gay",
   "lesbian", "trans", "immigrant", "disability"]

/-- Models touchesProtectedClass analogously. -/
def touchesProtectedClass (text : String) : Bool :=
  if text = String.mk [] then false
  else PROTECTED.any (fun p => strIncludes (jsToLower text) p)

/- ---------- command parsing (src/commands_Version3.js lines 42-50) ---------- -/

structure Parsed where
  cmd : String
  args : List String
  raw : String
deriving DecidableEq

/-- Models parseCommand: null unless trimmed text begins with the slash sigil. -/
def parseCommand (text : String) : Option Parsed :=
  if text = String.mk [] then none
  else
    let t := jsTrim text
    if strStarts t (String.mk ['/']) then
      let parts := jsSplitWs (strDrop t 1)
      some ⟨jsToLower (parts.headD (String.mk [])), parts.drop 1, t⟩
    else none

/- ---------- command registry (src/commands_Version3.js lines 73-100, 510-532) ---------- -/

/-- Names of the HANDLERS registry keys. -/
def HANDLERS : List String :=
  ["help", "menu", "reset", "summary", "export", "translate", "define", "tts",
   "download", "video", "image", "joke", "meme", "flirt", "compliment",
   "insult", "wasted", "poll", "vote", "broadcast", "stats"]

structure CmdMeta where
  id : String
  usage : String
  description : String
deriving DecidableEq

/-- The COMMANDS metadata array driving the menu and the cmd:id selection form. -/
def COMMANDS : List CmdMeta :=
  [⟨"help", "/help", "Show help and commands"⟩,
   ⟨"menu", "/menu", "Open interactive menu"⟩,
   ⟨"reset", "/reset", "Reset your conversation"⟩,
   ⟨"summary", "/summary", "Summarize the conversation"⟩,
   ⟨"export", "/export", "Export recent conversation"⟩,
   ⟨"translate", "/translate <lang> <text>", "Translate text to target language"⟩,
   ⟨"define", "/define <word>", "Get a concise definition"⟩,
   ⟨"tts", "/tts <text>", "Generate a short TTS audio link (optional)"⟩,
   ⟨"download", "/download", "Download last sent image/video/document"⟩,
   ⟨"video", "/video <url>", "Download video from URL"⟩,
   ⟨"image", "/image <prompt>", "Generate an image from prompt (requires OpenAI image key)"⟩,
   ⟨"joke", "/joke", "Tell a joke"⟩,
   ⟨"meme", "/meme <topic>", "Generate meme caption"⟩,
   ⟨"flirt", "/flirt [name]", "Send a playful flirt"⟩,
   ⟨"compliment", "/compliment [name]", "Send a compliment"⟩,
   ⟨"insult", "/insult [name]", "Send a mild playful insult"⟩,
   ⟨"wasted", "/wasted [name]", "Send wasted meme"⟩,
   ⟨"poll", "/poll \"Question\" \"Option1\" \"Option2\" [...]]", "Create a simple poll"⟩,
   ⟨"vote", "/vote <pollId> <optionIndex>", "Vote in a poll"⟩,
   ⟨"broadcast", "/broadcast <message>", "Admin: send broadcast"⟩,
   ⟨"stats", "/stats", "Admin: show usage stats"⟩]

/- ---------- command dispatch (src/commands_Version3.js lines 535-588) ---------- -/

/-- One observable effect of a dispatch: an outbound send, or a handler call. -/
inductive Effect where
  | send (dest msg : String)
  | invoke (cmd : String) (args : List String)
deriving DecidableEq

structure HandleResult where
  handled : Bool
  effects : List Effect
deriving DecidableEq

/-- The fixed prohibited-term warning text. -/
def PROFANITY_WARNING : String := "Please avoid profanity."

/-- The fixed apologetic reply sent when a handler raises. -/
def HANDLER_APOLOGY : String := "Sorry — an error occurred while running that command."

/-- The unknown-command reply with its hint. -/
def unknownCmdMsg (cmd : String) : String :=
  "Unknown command \"/" ++ cmd ++ "\". Send /help or /menu."

/-- A handler behaviour: the effects it emits, or the exception it raises. -/
abbrev HandlerRun : Type := String → String → List String → Except String (List Effect)

/-- Models handleCommand: parse, profanity gate, registry dispatch with a
catch-all, then the cmd:id selection form, then the unknown-command reply.
The per-handler state changes are abstracted by the run argument. -/
def handleCommand (run : HandlerRun) (sender text : String) : HandleResult :=
  match parseCommand text with
  | none => ⟨false, []⟩
  | some parsed =>
    if containsProfanity text then
      ⟨true, [Effect.send sender PROFANITY_WARNING]⟩
    else if parsed.cmd ∈ HANDLERS then
      match run parsed.cmd sender parsed.args with
      | Except.ok effs => ⟨true, Effect.invoke parsed.cmd parsed.args :: effs⟩
      | Except.error _ =>
        ⟨true, [Effect.invoke parsed.cmd parsed.args, Effect.send sender HANDLER_APOLOGY]⟩
    else if strStarts parsed.cmd (String.mk ['c', 'm', 'd', ':']) then
      match COMMANDS.find? (fun c => c.id = strDrop parsed.cmd 4) with
      | some target =>
        let usageParts := jsSplitWs target.usage
        let mainName :=
          String.mk (replaceFirstOcc ['/'] [] (usageParts.headD (String.mk [])).data)
        if mainName ∈ HANDLERS then
          match run mainName sender (usageParts.drop 1) with
          | Except.ok effs => ⟨true, Effect.invoke mainName (usageParts.drop 1) :: effs⟩
          | Except.error _ => ⟨true, [Effect.invoke mainName (usageParts.drop 1)]⟩
        else ⟨true, [Effect.send sender target.description]⟩
      | none => ⟨true, [Effect.send sender (unknownCmdMsg parsed.cmd)]⟩
    else ⟨true, [Effect.send sender (unknownCmdMsg parsed.cmd)]⟩

/- ---------- poll registry (src/commands_Version3.js lines 430-474) ---------- -/

structure Poll where
  question : String
  options : List String
  votes : List (List String)
  creator : String
deriving DecidableEq

/-- The POLLS map keyed by generated poll identifier. -/
abbrev PollMap : Type := List (String × Poll)

/-- Reads one quoted token at the current position: an opening quote, one or
more non-quote chars, a closing quote.  Mirrors a mandatory group of the
poll regex. -/
def scanQuoted : List Char → Option (List Char × List Char)
  | [] => none
  | c :: cs =>
    if c = '"' then
      match cs.dropWhile (fun d => ¬ d = '"') with
      | [] => none
      | _ :: rest =>
        let content := cs.takeWhile (fun d => ¬ d = '"')
        if content.isEmpty then none else some (content, rest)
    else none

/-- Skips a run of whitespace, mirroring a greedy whitespace group. -/
def skipWs (cs : List Char) : List Char :=
  cs.dropWhile Char.isWhitespace

/-- Collects up to fuel further quoted tokens, each preceded by optional
whitespace, mirroring the three optional groups of the poll regex. -/
def collectOpt : Nat → List Char → List String
  | 0, _ => []
  | fuel + 1, cs =>
    match scanQuoted (skipWs cs) with
    | none => []
    | some (content, rest) => String.mk content :: collectOpt fuel rest

/-- Attempts the poll regex at the current position: two mandatory quoted
groups, then up to three optional ones. -/
def matchPollAt (cs : List Char) : Option (String × List String) :=
  match scanQuoted cs with
  | none => none
  | some (q, rest1) =>
    match scanQuoted (skipWs rest1) with
    | none => none
    | some (o1, rest2) => some (String.mk q, String.mk o1 :: collectOpt 3 rest2)

/-- Unanchored regex search: first position where the match attempt succeeds. -/
def searchPoll : List Char → Option (String × List String)
  | [] => none
  | c :: cs =>
    match matchPollAt (c :: cs) with
    | some r => some r
    | none => searchPoll cs

inductive PollCmdReply where
  | usage
  | needTwo
  | created (id : String) (question : String) (options : List String)
deriving DecidableEq

/-- Models cmd_poll: join the argument tokens, run the quoted-string regex,
reject fewer than two options, otherwise store the poll under the freshly
generated identifier (passed in as newId). -/
def cmd_poll (polls : PollMap) (creator : String) (args : List String)
    (newId : String) : PollMap × PollCmdReply :=
  let text := joinSpace args
  match searchPoll text.data with
  | none => (polls, PollCmdReply.usage)
  | some (question, options) =>
    if options.length < 2 then (polls, PollCmdReply.needTwo)
    else
      let votes := options.map (fun _ => ([] : List String))
      (alistSet polls newId ⟨question, options, votes, normalizeBare creator⟩,
       PollCmdReply.created newId question options)

/-- Removes the first occurrence of a voter, mirroring indexOf plus splice. -/
def removeFirst (v : String) : List String → List String
  | [] => []
  | x :: xs => if x = v then xs else x :: removeFirst v xs

/-- Appends the voter to the array at the given index, mirroring votes[idx].push. -/
def pushAt (v : String) : Nat → List (List String) → List (List String)
  | _, [] => []
  | 0, l :: rest => (l ++ [v]) :: rest
  | n + 1, l :: rest => l :: pushAt v n rest

/-- The tally derived from a poll, option text paired with vote count. -/
def pollTally (p : Poll) : List (String × Nat) :=
  (p.options.zip p.votes).map (fun ov => (ov.1, ov.2.length))

inductive VoteReply where
  | usage
  | notFound
  | invalidOption
  | ok (idx : Int) (tally : List (String × Nat))
deriving DecidableEq

/-- Models cmd_vote: usage check, poll lookup, retraction of the first
occurrence of the voter from every option array, then the index-validity
check, then the push of the new vote.  The retraction mutates the stored
poll in place, so it is written back on both remaining paths. -/
def cmd_vote (polls : PollMap) (sender : String) (arg0 : Option String)
    (arg1 : Option Int) : PollMap × VoteReply :=
  match arg0, arg1 with
  | none, _ => (polls, VoteReply.usage)
  | some _, none => (polls, VoteReply.usage)
  | some pollId, some idx =>
    if pollId = String.mk [] then (polls, VoteReply.usage)
    else
      match alistGet polls pollId with
      | none => (polls, VoteReply.notFound)
      | some poll =>
        let voter := normalizeBare sender
        let votes1 := poll.votes.map (removeFirst voter)
        if 0 ≤ idx ∧ idx.toNat < votes1.length then
          let votes2 := pushAt voter idx.toNat votes1
          let poll2 : Poll := ⟨poll.question, poll.options, votes2, poll.creator⟩
          (alistSet polls pollId poll2, VoteReply.ok idx (pollTally poll2))
        else
          (alistSet polls pollId ⟨poll.question, poll.options, votes1, poll.creator⟩,
           VoteReply.invalidOption)

/- ---------- completion client (src/openai-client.js lines 13-35) ---------- -/

/-- The error text thrown on an empty completion response. -/
def NO_CONTENT_ERR : String := "No content in OpenAI response"

/-- Models generateReply: the HTTP outcome is an input; a transport error
propagates, a missing or empty content field raises, otherwise the trimmed
content is returned.  The messages argument only shapes the request. -/
def generateReply (messages : List Message) (resp : Except String (Option String)) :
    Except String String :=
  match messages, resp with
  | _, Except.error e => Except.error e
  | _, Except.ok none => Except.error NO_CONTENT_ERR
  | _, Except.ok (some c) =>
    if c = String.mk [] then Except.error NO_CONTENT_ERR
    else Except.ok (jsTrim c)

/- ---------- webhook conversational flow (src/index.js lines 111-134) ---------- -/

/-- The fixed apology used when no reply could be produced.  The string
contains the ASCII apostrophe, written via its code point. -/
def FALLBACK_APOLOGY : String :=
  "Sorry, I couldn" ++ String.mk [Char.ofNat 39] ++ "t create a reply at the moment."

/-- The placeholder text recorded for non-text messages. -/
def placeholderText (msgType : String) : String :=
  "[" ++ msgType ++ " message received]"

/-- The text actually recorded for an inbound message: the trimmed user text
when it is truthy and not whitespace only, else the type placeholder. -/
def inboundText (userText msgType : String) : String :=
  if userText = String.mk [] ∨ jsTrim userText = String.mk [] then placeholderText msgType
  else jsTrim userText

/-- Models one message of the webhook loop: record the user text (or the
placeholder), build the conversation, call the completion client, append
the assistant reply on success, and pick the outbound reply text. -/
def webhookProcess (maxM : Nat) (st : Store) (sender userText msgType : String)
    (resp : Except String (Option String)) (now : Nat) : Store × String :=
  let st1 := appendUserMessage maxM st sender (inboundText userText msgType) now
  let conv := getConversationForOpenAI st1 sender now
  match generateReply conv.2 resp with
  | Except.ok reply => (appendAssistantMessage maxM conv.1 sender reply now, reply)
  | Except.error _ => (conv.1, FALLBACK_APOLOGY)

/- ---------- operation sequences and invariant predicates ---------- -/

/-- One append operation on the session store. -/
inductive SessOp where
  | user (u text : String) (now : Nat)
  | asst (u text : String) (now : Nat)

/-- Applies one append operation. -/
def applySessOp (maxM : Nat) (st : Store) : SessOp → Store
  | SessOp.user u t now => appendUserMessage maxM st u t now
  | SessOp.asst u t now => appendAssistantMessage maxM st u t now

/-- Applies a sequence of append operations in order. -/
def applySessOps (maxM : Nat) (st : Store) (ops : List SessOp) : Store :=
  ops.foldl (applySessOp maxM) st

/-- The session invariant of the spec: at most maxTurns non-system entries,
and the head is the single system preamble, never removed or duplicated. -/
def sessionOk (maxM : Nat) (s : Session) : Prop :=
  s.messages.length - 1 ≤ maxM ∧
  ∃ rest, s.messages = sysMsg :: rest ∧ ∀ m ∈ rest, m.role ≠ Role.system

/-- The store-wide form of the session invariant. -/
def storeOk (maxM : Nat) (st : Store) : Prop :=
  ∀ u s, alistGet st u = some s → sessionOk maxM s

/-- One operation on the poll registry. -/
inductive PollOp where
  | create (creator : String) (args : List String) (newId : String)
  | vote (sender : String) (arg0 : Option String) (arg1 : Option Int)

/-- Applies one poll operation, keeping only the registry state. -/
def applyPollOp (polls : PollMap) : PollOp → PollMap
  | PollOp.create c a i => (cmd_poll polls c a i).1
  | PollOp.vote s a0 a1 => (cmd_vote polls s a0 a1).1

/-- Applies a sequence of poll operations in order. -/
def applyPollOps (polls : PollMap) (ops : List PollOp) : PollMap :=
  ops.foldl applyPollOp polls

/-- Number of occurrences of a voter in one option array. -/
def countOcc (v : String) : List String → Nat
  | [] => 0
  | x :: xs => (if x = v then 1 else 0) + countOcc v xs

/-- Total occurrences of a voter across all option arrays of a poll. -/
def sumVotes (v : String) (votes : List (List String)) : Nat :=
  (votes.map (countOcc v)).sum

/-- Number of option arrays that contain the voter at all. -/
def optionsWith (v : String) : List (List String) → Nat
  | [] => 0
  | l :: rest => (if 0 < countOcc v l then 1 else 0) + optionsWith v rest

/-- The voter multiplicity invariant of the poll registry. -/
def pollOk (p : Poll) : Prop := ∀ v, sumVotes v p.votes ≤ 1

/-- The registry-wide form of the voter multiplicity invariant. -/
def mapOk (polls : PollMap) : Prop :=
  ∀ pid p, alistGet polls pid = some p → pollOk p

/- ---------- helper constructions for the poll regex lemmas ---------- -/

/-- Wraps a string in double quotes, the shape of one poll argument token. -/
def quoteStr (s : String) : String :=
  String.mk ('"' :: s.data ++ ['"'])

/-- The character form of a run of further quoted tokens, each preceded by
the single space that joinSpace inserts. -/
def sepQuoted : List String → List Char
  | [] => []
  | s :: rest => ' ' :: '"' :: s.data ++ '"' :: sepQuoted rest

/-- A plain token: nonempty, and free of double quotes and whitespace. -/
abbrev plainStr (s : String) : Prop :=
  s.data ≠ [] ∧ ∀ c ∈ s.data, ¬ (c = '"' ∨ c.isWhitespace = true)

/- ---------- concrete scenario states ---------- -/

/-- Scenario store after appending user hi with maxTurns one. -/
def storeC3a : Store := appendUserMessage 1 [] "U1" "hi" 10

/-- Scenario store after additionally appending assistant hello. -/
def storeC3b : Store := appendAssistantMessage 1 storeC3a ("U1") ("hello") 11

/-- Scenario store after additionally appending user bye. -/
def storeC3c : Store := appendUserMessage 1 storeC3b ("U1") ("bye") 12

/-- Registry after creating a two-option poll p1. -/
def pollsC2a : PollMap :=
  (cmd_poll [] ("15551234567") [quoteStr ("Q"), quoteStr ("A"), quoteStr ("B")] ("p1")).1

/-- Registry after voter 15551234567 successfully votes option zero on p1. -/
def pollsC2b : PollMap :=
  (cmd_vote pollsC2a ("15551234567") (some ("p1")) (some 0)).1

/- ==================== theorems ==================== -/

/- ---------- association list lemmas ---------- -/

theorem alistGet_alistSet {α : Type} (m : List (String × α)) (k : String) (v : α)
    (k2 : String) :
    alistGet (alistSet m k v) k2 = if k = k2 then some v else alistGet m k2 := by
  induction m with
  | nil => simp [alistGet, alistSet]
  | cons kv rest ih =>
    obtain ⟨k0, v0⟩ := kv
    by_cases h0 : k0 = k
    · subst h0
      by_cases h2 : k0 = k2 <;> simp [alistGet, alistSet, h2]
    · by_cases h2 : k0 = k2
      · subst h2
        have hk : ¬ (k = k0) := fun h => h0 h.symm
        simp [alistGet, alistSet, h0, hk]
      · simp [alistGet, alistSet, h0, h2, ih]

/- ---------- claim C6 ---------- -/

/-- Claim C6, counterexample: a whitespace-only text is not a no-op; the
append creates a session and records the whitespace message, refuting the
whitespace half of the claim. -/
theorem C6_counterexample :
    jsTrim (" ") = String.mk [] ∧
    appendUserMessage 12 ([] : Store) ("U1") (" ") 5 ≠ ([] : Store) ∧
    appendAssistantMessage 12 ([] : Store) ("U1") (" ") 5 ≠ ([] : Store) := by
  decide

/-- Claim C6, amended: appendUser and appendAssistant are no-ops exactly for
the empty text; the store, hence every session, timestamp, and membership,
is unchanged.  A whitespace-only text is appended like any other text. -/
theorem C6_empty_text_noop (maxM : Nat) (st : Store) (u : String) (now : Nat) :
    appendUserMessage maxM st u (String.mk []) now = st ∧
    appendAssistantMessage maxM st u (String.mk []) now = st := by
  constructor <;> simp [appendUserMessage, appendAssistantMessage]

/- ---------- claim C3 ---------- -/

/-- Claim C3, counterexample: with maxTurns one the scenario does not end in
the three-message history the claim states. -/
theorem C3_counterexample :
    ¬ ((alistGet storeC3c ("U1")).map Session.messages =
        some [sysMsg, ⟨Role.assistant, "hello"⟩, ⟨Role.user, "bye"⟩]) := by
  decide

/-- Claim C3, amended: with maxTurns one, trimming after each append keeps
only the newest non-system entry, so the scenario ends with the history
SYSTEM then user bye; both hi and the assistant hello are dropped. -/
theorem C3_trim_scenario :
    (alistGet storeC3c ("U1")).map Session.messages =
      some [sysMsg, ⟨Role.user, "bye"⟩] := by
  decide

/- ---------- claim C1 ---------- -/

/-- Claim C1, amended: for inbound text that parses as a command, a
prohibited-term match on the whole text short-circuits dispatch for every
handler behaviour: handled is true and the fixed warning is the only
effect, so no handler is invoked. -/
theorem C1_profanity_gate (run : HandlerRun) (sender text : String) (p : Parsed)
    (hp : parseCommand text = some p) (hf : containsProfanity text = true) :
    handleCommand run sender text =
      ⟨true, [Effect.send sender PROFANITY_WARNING]⟩ := by
  unfold handleCommand
  rw [hp]
  simp [hf]

/-- Claim C1, counterexample: a non-command message that is exactly a
prohibited term is not short-circuited, because parseCommand runs first:
handled is false and no warning is sent. -/
theorem C1_counterexample :
    containsProfanity ("badword1") = true ∧
    handleCommand (fun _ _ _ => Except.ok []) ("15551234567") ("badword1") =
      ⟨false, []⟩ := by
  decide

/-- Claim C1, witness: a slash command containing a prohibited term is
short-circuited with the fixed warning. -/
theorem C1_witness :
    parseCommand ("/insult badword1") =
      some ⟨"insult", ["badword1"], "/insult badword1"⟩ ∧
    containsProfanity ("/insult badword1") = true ∧
    handleCommand (fun _ _ _ => Except.ok []) ("15551234567") ("/insult badword1") =
      ⟨true, [Effect.send ("15551234567") PROFANITY_WARNING]⟩ :=
  ⟨by decide, by decide,
   C1_profanity_gate (fun _ _ _ => Except.ok []) "15551234567" "/insult badword1"
     ⟨"insult", ["badword1"], "/insult badword1"⟩ (by decide) (by decide)⟩

/- ---------- claim C9 ---------- -/

/-- Claim C9, amended: when the parsed command name itself is a key of the
handler registry and the handler raises, the router catches the exception,
sends the fixed apology, and still returns handled; the exception never
propagates.  In the secondary cmd:id selection path the exception is caught
and handled is still true, but only logged, with no apology sent. -/
theorem C9_handler_fault_caught (run : HandlerRun) (sender text err : String)
    (p : Parsed) (hp : parseCommand text = some p)
    (hf : containsProfanity text = false) (hmem : p.cmd ∈ HANDLERS)
    (hrun : run p.cmd sender p.args = Except.error err) :
    handleCommand run sender text =
      ⟨true, [Effect.invoke p.cmd p.args, Effect.send sender HANDLER_APOLOGY]⟩ := by
  unfold handleCommand
  rw [hp]
  simp [hf, hmem, hrun]

/-- Claim C9, counterexample: a command reaching a registered handler
through the cmd:id selection form has its exception caught with handled
true, but the fixed apologetic reply is not sent. -/
theorem C9_counterexample :
    (handleCommand (fun _ _ _ => Except.error ("boom")) ("15551234567")
        ("/cmd:help")).handled = true ∧
    ¬ (Effect.send ("15551234567") HANDLER_APOLOGY ∈
        (handleCommand (fun _ _ _ => Except.error ("boom")) ("15551234567")
          ("/cmd:help")).effects) := by
  decide

/-- Claim C9, witness: a raising joke handler yields handled true and the
fixed apology. -/
theorem C9_witness :
    handleCommand (fun _ _ _ => Except.error ("boom")) ("15551234567") ("/joke") =
      ⟨true, [Effect.invoke ("joke") [], Effect.send ("15551234567") HANDLER_APOLOGY]⟩ :=
  C9_handler_fault_caught (fun _ _ _ => Except.error ("boom")) "15551234567" "/joke"
    "boom" ⟨"joke", [], "/joke"⟩ (by decide) (by decide) (by decide) rfl

/- ---------- claim C2 ---------- -/

/-- Claim C2, amended: an out-of-range vote on an existing poll fails with
InvalidOption and keeps the question, options and creator, but the
retract-prior-vote step has already run: the stored votes are the previous
votes with the first occurrence of the caller removed from every option
array, so a previously cast vote is gone. -/
theorem C2_invalid_option_retracts (polls : PollMap) (sender pid : String)
    (idx : Int) (poll : Poll) (hget : alistGet polls pid = some poll)
    (hpid : ¬ pid = String.mk [])
    (hidx : ¬ (0 ≤ idx ∧ idx.toNat < poll.votes.length)) :
    cmd_vote polls sender (some pid) (some idx) =
      (alistSet polls pid
         ⟨poll.question, poll.options,
          poll.votes.map (removeFirst (normalizeBare sender)), poll.creator⟩,
       VoteReply.invalidOption) := by
  simp only [cmd_vote]
  rw [if_neg hpid, hget]
  simp only [List.length_map]
  rw [if_neg hidx]

/-- Claim C2, counterexample: voter 15551234567 has a recorded vote on
option zero of poll p1; an out-of-range vote for option five replies
InvalidOption, yet afterwards the prior vote is no longer present. -/
theorem C2_counterexample :
    alistGet pollsC2b ("p1") =
      some ⟨"Q", ["A", "B"], [["15551234567"], []], "15551234567"⟩ ∧
    (cmd_vote pollsC2b ("15551234567") (some ("p1")) (some 5)).2 =
      VoteReply.invalidOption ∧
    alistGet (cmd_vote pollsC2b ("15551234567") (some ("p1")) (some 5)).1 ("p1") =
      some ⟨"Q", ["A", "B"], [[], []], "15551234567"⟩ := by
  decide

/-- Claim C2, witness: the amended theorem applied to the concrete scenario. -/
theorem C2_witness :
    cmd_vote pollsC2b ("15551234567") (some ("p1")) (some 5) =
      (alistSet pollsC2b ("p1")
         ⟨"Q", ["A", "B"],
          [["15551234567"], []].map (removeFirst (normalizeBare ("15551234567"))),
          "15551234567"⟩,
       VoteReply.invalidOption) :=
  C2_invalid_option_retracts pollsC2b "15551234567" "p1" 5
    ⟨"Q", ["A", "B"], [["15551234567"], []], "15551234567"⟩
    (by decide) (by decide) (by decide)

/- ---------- claim C4 ---------- -/

theorem ensure_get_self (st : Store) (u : String) (now : Nat) :
    ∃ s, alistGet (ensureSession st u now) u = some s ∧
      (alistGet st u = some s ∨ s = ⟨[sysMsg], now⟩) := by
  unfold ensureSession
  cases h : alistGet st u with
  | some s => exact ⟨s, h, Or.inl rfl⟩
  | none =>
    refine ⟨⟨[sysMsg], now⟩, ?_, Or.inr rfl⟩
    rw [alistGet_alistSet]
    simp

theorem ensure_get_other (st : Store) (u : String) (now : Nat) (u2 : String)
    (s2 : Session) (h : alistGet (ensureSession st u now) u2 = some s2) :
    alistGet st u2 = some s2 ∨ s2 = ⟨[sysMsg], now⟩ := by
  unfold ensureSession at h
  cases hg : alistGet st u with
  | some s => rw [hg] at h; exact Or.inl h
  | none =>
    rw [hg, alistGet_alistSet] at h
    by_cases he : u = u2
    · rw [if_pos he] at h
      exact Or.inr (Option.some.inj h).symm
    · rw [if_neg he] at h
      exact Or.inl h

theorem sessionOk_fresh (maxM now : Nat) : sessionOk maxM ⟨[sysMsg], now⟩ := by
  refine ⟨by simp, [], rfl, by simp⟩

theorem sessionOk_append (maxM : Nat) (hM : 1 ≤ maxM) (s : Session)
    (h : sessionOk maxM s) (m : Message) (hm : m.role ≠ Role.system) (now : Nat) :
    sessionOk maxM ⟨trimMessages maxM (s.messages ++ [m]), now⟩ := by
  obtain ⟨_, rest, hshape, hrest⟩ := h
  rw [hshape]
  have hcons : (sysMsg :: rest) ++ [m] = sysMsg :: (rest ++ [m]) := rfl
  rw [hcons]
  have hM0 : ¬ maxM = 0 := by omega
  constructor
  · show (sysMsg :: jsSliceLast maxM (rest ++ [m])).length - 1 ≤ maxM
    rw [jsSliceLast, if_neg hM0]
    simp only [List.length_cons, List.length_drop]
    omega
  · refine ⟨jsSliceLast maxM (rest ++ [m]), rfl, ?_⟩
    intro x hx
    rw [jsSliceLast, if_neg hM0] at hx
    have hx2 : x ∈ rest ++ [m] := List.drop_subset _ _ hx
    rcases List.mem_append.mp hx2 with h1 | h1
    · exact hrest x h1
    · rw [List.mem_singleton.mp h1]
      exact hm

theorem storeOk_append_core (maxM : Nat) (hM : 1 ≤ maxM) (st : Store)
    (hst : storeOk maxM st) (u t : String) (now : Nat) (r : Role)
    (hr : r ≠ Role.system) :
    storeOk maxM (alistSet (ensureSession st u now) u
      ⟨trimMessages maxM
         ((((alistGet (ensureSession st u now) u).getD ⟨[], 0⟩)).messages ++ [⟨r, t⟩]),
       now⟩) := by
  intro u2 s2 h2
  rw [alistGet_alistSet] at h2
  obtain ⟨s0, hs0, hc⟩ := ensure_get_self st u now
  have hs0ok : sessionOk maxM s0 := by
    rcases hc with h | h
    · exact hst u s0 h
    · rw [h]; exact sessionOk_fresh maxM now
  by_cases he : u = u2
  · rw [if_pos he] at h2
    rw [hs0] at h2
    have := Option.some.inj h2
    rw [← this]
    exact sessionOk_append maxM hM s0 hs0ok ⟨r, t⟩ hr now
  · rw [if_neg he] at h2
    rcases ensure_get_other st u now u2 s2 h2 with h | h
    · exact hst u2 s2 h
    · rw [h]; exact sessionOk_fresh maxM now

theorem storeOk_applyOp (maxM : Nat) (hM : 1 ≤ maxM) (st : Store)
    (hst : storeOk maxM st) (op : SessOp) :
    storeOk maxM (applySessOp maxM st op) := by
  cases op with
  | user u t now =>
    show storeOk maxM (appendUserMessage maxM st u t now)
    unfold appendUserMessage
    by_cases ht : t = String.mk []
    · rw [if_pos ht]; exact hst
    · rw [if_neg ht]
      exact storeOk_append_core maxM hM st hst u t now Role.user (by simp)
  | asst u t now =>
    show storeOk maxM (appendAssistantMessage maxM st u t now)
    unfold appendAssistantMessage
    by_cases ht : t = String.mk []
    · rw [if_pos ht]; exact hst
    · rw [if_neg ht]
      exact storeOk_append_core maxM hM st hst u t now Role.assistant (by simp)

theorem storeOk_applyOps (maxM : Nat) (hM : 1 ≤ maxM) (st : Store)
    (hst : storeOk maxM st) (ops : List SessOp) :
    storeOk maxM (applySessOps maxM st ops) := by
  induction ops generalizing st with
  | nil => exact hst
  | cons op rest ih =>
    exact ih (applySessOp maxM st op) (storeOk_applyOp maxM hM st hst op)

/-- Claim C4: for every positive configured cap and every sequence of
appends starting from the empty store, every stored session satisfies the
invariant: at most maxTurns non-system messages, and the head is the single
system preamble, never removed and never duplicated. -/
theorem C4_session_invariant (maxM : Nat) (ops : List SessOp) (u : String)
    (s : Session) (hM : 1 ≤ maxM)
    (h : alistGet (applySessOps maxM [] ops) u = some s) :
    sessionOk maxM s := by
  have hempty : storeOk maxM ([] : Store) := by
    intro u2 s2 h2
    simp [alistGet] at h2
  exact storeOk_applyOps maxM hM [] hempty ops u s h

/-- Claim C4, witness: a three-append sequence with cap two ends in a
session satisfying the invariant. -/
theorem C4_witness :
    1 ≤ 2 ∧ sessionOk 2 ⟨[sysMsg, ⟨Role.assistant, "b"⟩, ⟨Role.user, "c"⟩], 3⟩ :=
  ⟨by decide,
   C4_session_invariant 2
     [SessOp.user ("u7") ("a") 1, SessOp.asst ("u7") ("b") 2,
      SessOp.user ("u7") ("c") 3]
     "u7" ⟨[sysMsg, ⟨Role.assistant, "b"⟩, ⟨Role.user, "c"⟩], 3⟩
     (by decide) (by decide)⟩

/- ---------- claim C5 ---------- -/

theorem cmd_poll_eq_some (polls : PollMap) (creator : String) (args : List String)
    (newId question : String) (options : List String)
    (hs : searchPoll (joinSpace args).data = some (question, options)) :
    cmd_poll polls creator args newId =
      if options.length < 2 then (polls, PollCmdReply.needTwo)
      else
        (alistSet polls newId
           ⟨question, options, options.map (fun _ => ([] : List String)),
            normalizeBare creator⟩,
         PollCmdReply.created newId question options) := by
  simp only [cmd_poll, hs]

theorem cmd_poll_eq_none (polls : PollMap) (creator : String) (args : List String)
    (newId : String) (hs : searchPoll (joinSpace args).data = none) :
    cmd_poll polls creator args newId = (polls, PollCmdReply.usage) := by
  simp only [cmd_poll, hs]

theorem cmd_vote_eq_found (polls : PollMap) (sender pid : String) (idx : Int)
    (poll : Poll) (hpid : ¬ pid = String.mk [])
    (hget : alistGet polls pid = some poll) :
    cmd_vote polls sender (some pid) (some idx) =
      if 0 ≤ idx ∧
          idx.toNat < (poll.votes.map (removeFirst (normalizeBare sender))).length then
        (alistSet polls pid
           ⟨poll.question, poll.options,
            pushAt (normalizeBare sender) idx.toNat
              (poll.votes.map (removeFirst (normalizeBare sender))),
            poll.creator⟩,
         VoteReply.ok idx
           (pollTally
              ⟨poll.question, poll.options,
               pushAt (normalizeBare sender) idx.toNat
                 (poll.votes.map (removeFirst (normalizeBare sender))),
               poll.creator⟩))
      else
        (alistSet polls pid
           ⟨poll.question, poll.options,
            poll.votes.map (removeFirst (normalizeBare sender)), poll.creator⟩,
         VoteReply.invalidOption) := by
  simp only [cmd_vote, if_neg hpid, hget]

theorem countOcc_removeFirst_self (v : String) (l : List String) :
    countOcc v (removeFirst v l) = countOcc v l - 1 := by
  induction l with
  | nil => rfl
  | cons x xs ih =>
    by_cases h : x = v
    · rw [removeFirst, if_pos h, countOcc, if_pos h]
      omega
    · rw [removeFirst, if_neg h, countOcc, countOcc, if_neg h, ih]
      have : countOcc v xs - 1 ≤ countOcc v xs := Nat.sub_le _ _
      omega

theorem countOcc_removeFirst_le (v w : String) (l : List String) :
    countOcc v (removeFirst w l) ≤ countOcc v l := by
  induction l with
  | nil => simp [removeFirst]
  | cons x xs ih =>
    by_cases h : x = w
    · rw [removeFirst, if_pos h, countOcc]
      omega
    · rw [removeFirst, if_neg h, countOcc, countOcc]
      omega

theorem countOcc_removeFirst_ne (v w : String) (h : ¬ w = v) (l : List String) :
    countOcc v (removeFirst w l) = countOcc v l := by
  induction l with
  | nil => rfl
  | cons x xs ih =>
    by_cases hx : x = w
    · rw [removeFirst, if_pos hx, countOcc]
      have : ¬ x = v := by rw [hx]; exact h
      rw [if_neg this]
      omega
    · rw [removeFirst, if_neg hx, countOcc, countOcc, ih]

theorem countOcc_append (v : String) (l1 l2 : List String) :
    countOcc v (l1 ++ l2) = countOcc v l1 + countOcc v l2 := by
  induction l1 with
  | nil => simp [countOcc]
  | cons x xs ih =>
    rw [List.cons_append, countOcc, countOcc, ih]
    omega

theorem sumVotes_cons (v : String) (l : List String) (votes : List (List String)) :
    sumVotes v (l :: votes) = countOcc v l + sumVotes v votes := by
  simp [sumVotes]

theorem sumVotes_retract_self (v : String) (votes : List (List String))
    (h : sumVotes v votes ≤ 1) :
    sumVotes v (votes.map (removeFirst v)) = 0 := by
  induction votes with
  | nil => rfl
  | cons l rest ih =>
    rw [List.map_cons, sumVotes_cons]
    rw [sumVotes_cons] at h
    have h2 : sumVotes v rest ≤ 1 := by omega
    have h3 := ih h2
    have h4 : countOcc v (removeFirst v l) ≤ countOcc v l := countOcc_removeFirst_le v v l
    by_cases h5 : countOcc v l = 0
    · have h6 : countOcc v (removeFirst v l) = 0 := by omega
      omega
    · have h7 : sumVotes v rest = 0 := by omega
      have h8 : countOcc v l = 1 := by omega
      have h9 : countOcc v (removeFirst v l) = 0 := by
        have := countOcc_removeFirst_self v l
        omega
      omega

theorem sumVotes_retract_le (v w : String) (votes : List (List String)) :
    sumVotes v (votes.map (removeFirst w)) ≤ sumVotes v votes := by
  induction votes with
  | nil => simp [sumVotes]
  | cons l rest ih =>
    rw [List.map_cons, sumVotes_cons, sumVotes_cons]
    have := countOcc_removeFirst_le v w l
    omega

theorem sumVotes_retract_ne (v w : String) (h : ¬ w = v) (votes : List (List String)) :
    sumVotes v (votes.map (removeFirst w)) = sumVotes v votes := by
  induction votes with
  | nil => rfl
  | cons l rest ih =>
    rw [List.map_cons, sumVotes_cons, sumVotes_cons, countOcc_removeFirst_ne v w h, ih]

theorem sumVotes_pushAt_self (v : String) (n : Nat) (votes : List (List String)) :
    sumVotes v (pushAt v n votes) ≤ sumVotes v votes + 1 := by
  induction votes generalizing n with
  | nil => simp [pushAt, sumVotes]
  | cons l rest ih =>
    cases n with
    | zero =>
      rw [pushAt, sumVotes_cons, sumVotes_cons, countOcc_append]
      have : countOcc v [v] = 1 := by simp [countOcc]
      omega
    | succ n =>
      rw [pushAt, sumVotes_cons, sumVotes_cons]
      have := ih n
      omega

theorem sumVotes_pushAt_ne (v w : String) (h : ¬ v = w) (n : Nat)
    (votes : List (List String)) :
    sumVotes w (pushAt v n votes) = sumVotes w votes := by
  induction votes generalizing n with
  | nil => cases n <;> rfl
  | cons l rest ih =>
    cases n with
    | zero =>
      rw [pushAt, sumVotes_cons, sumVotes_cons, countOcc_append]
      have : countOcc w [v] = 0 := by simp [countOcc, h]
      omega
    | succ n =>
      rw [pushAt, sumVotes_cons, sumVotes_cons, ih]

theorem optionsWith_le_sumVotes (v : String) (votes : List (List String)) :
    optionsWith v votes ≤ sumVotes v votes := by
  induction votes with
  | nil => simp [optionsWith, sumVotes]
  | cons l rest ih =>
    rw [optionsWith, sumVotes_cons]
    by_cases h : 0 < countOcc v l
    · rw [if_pos h]; omega
    · rw [if_neg h]; omega

theorem sumVotes_empty_options (v : String) (options : List String) :
    sumVotes v (options.map (fun _ => ([] : List String))) = 0 := by
  induction options with
  | nil => rfl
  | cons o rest ih =>
    rw [List.map_cons, sumVotes_cons, ih, countOcc]

theorem mapOk_set (polls : PollMap) (h : mapOk polls) (pid : String) (p : Poll)
    (hp : pollOk p) : mapOk (alistSet polls pid p) := by
  intro pid2 p2 h2
  rw [alistGet_alistSet] at h2
  by_cases he : pid = pid2
  · rw [if_pos he] at h2
    rw [← Option.some.inj h2]
    exact hp
  · rw [if_neg he] at h2
    exact h pid2 p2 h2

theorem mapOk_cmd_poll (polls : PollMap) (h : mapOk polls) (creator : String)
    (args : List String) (newId : String) :
    mapOk (cmd_poll polls creator args newId).1 := by
  cases hs : searchPoll (joinSpace args).data with
  | none => rw [cmd_poll_eq_none polls creator args newId hs]; exact h
  | some qo =>
    obtain ⟨question, options⟩ := qo
    rw [cmd_poll_eq_some polls creator args newId question options hs]
    by_cases hlen : options.length < 2
    · rw [if_pos hlen]; exact h
    · rw [if_neg hlen]
      apply mapOk_set polls h newId
      intro v
      show sumVotes v (options.map (fun _ => ([] : List String))) ≤ 1
      rw [sumVotes_empty_options]
      omega

theorem mapOk_cmd_vote (polls : PollMap) (h : mapOk polls) (sender : String)
    (a0 : Option String) (a1 : Option Int) :
    mapOk (cmd_vote polls sender a0 a1).1 := by
  rcases a0 with _ | pid
  · exact h
  rcases a1 with _ | idx
  · exact h
  by_cases hpid : pid = String.mk []
  · simp only [cmd_vote, if_pos hpid]; exact h
  cases hget : alistGet polls pid with
  | none => simp only [cmd_vote, if_neg hpid, hget]; exact h
  | some poll =>
    have hOk : pollOk poll := h pid poll hget
    rw [cmd_vote_eq_found polls sender pid idx poll hpid hget]
    by_cases hidx : 0 ≤ idx ∧
        idx.toNat < (poll.votes.map (removeFirst (normalizeBare sender))).length
    · rw [if_pos hidx]
      apply mapOk_set polls h pid
      intro v
      show sumVotes v (pushAt (normalizeBare sender) idx.toNat
        (poll.votes.map (removeFirst (normalizeBare sender)))) ≤ 1
      by_cases hv : normalizeBare sender = v
      · rw [← hv]
        have h0 : sumVotes (normalizeBare sender)
            (poll.votes.map (removeFirst (normalizeBare sender))) = 0 :=
          sumVotes_retract_self (normalizeBare sender) poll.votes
            (hOk (normalizeBare sender))
        have := sumVotes_pushAt_self (normalizeBare sender) idx.toNat
          (poll.votes.map (removeFirst (normalizeBare sender)))
        omega
      · rw [sumVotes_pushAt_ne (normalizeBare sender) v hv,
          sumVotes_retract_ne v (normalizeBare sender) hv]
        exact hOk v
    · rw [if_neg hidx]
      apply mapOk_set polls h pid
      intro v
      exact le_trans (sumVotes_retract_le v (normalizeBare sender) poll.votes) (hOk v)

theorem mapOk_applyPollOps (polls : PollMap) (h : mapOk polls) (ops : List PollOp) :
    mapOk (applyPollOps polls ops) := by
  induction ops generalizing polls with
  | nil => exact h
  | cons op rest ih =>
    refine ih (applyPollOp polls op) ?_
    cases op with
    | create c a i => exact mapOk_cmd_poll polls h c a i
    | vote s a0 a1 => exact mapOk_cmd_vote polls h s a0 a1

/-- Claim C5: after every sequence of poll operations starting from the
empty registry, every stored poll has each voter in the voter set of at
most one option. -/
theorem C5_voter_uniqueness (ops : List PollOp) (pid : String) (p : Poll)
    (v : String) (h : alistGet (applyPollOps [] ops) pid = some p) :
    optionsWith v p.votes ≤ 1 := by
  have hmap : mapOk (applyPollOps [] ops) := by
    refine mapOk_applyPollOps [] ?_ ops
    intro pid2 p2 h2
    simp [alistGet] at h2
  exact le_trans (optionsWith_le_sumVotes v p.votes) (hmap pid p h v)

/-- Claim C5, witness: a create followed by two votes by the same voter
leaves that voter in exactly one option array. -/
theorem C5_witness :
    optionsWith ("15551234567") [[], ["15551234567"]] ≤ 1 :=
  C5_voter_uniqueness
    [PollOp.create ("15551234567") [quoteStr ("Q"), quoteStr ("A"), quoteStr ("B")] ("p9"),
     PollOp.vote ("15551234567") (some ("p9")) (some 0),
     PollOp.vote ("15551234567") (some ("p9")) (some 1)]
    "p9" ⟨"Q", ["A", "B"], [[], ["15551234567"]], "15551234567"⟩ "15551234567"
    (by decide)

/- ---------- claims C7 and C10: poll regex lemmas ---------- -/

theorem strDataApp (a b : String) : (a ++ b).data = a.data ++ b.data := by
  cases a; cases b; rfl

theorem strDataMk (l : List Char) : (String.mk l).data = l := rfl

theorem strMkData (s : String) : String.mk s.data = s := rfl

theorem plain_quote (s : String) (h : plainStr s) :
    s.data ≠ [] ∧ ∀ c ∈ s.data, ¬ c = '"' :=
  ⟨h.1, fun c hc he => h.2 c hc (Or.inl he)⟩

theorem takeWhile_all_app (p : Char → Bool) (l : List Char)
    (h : ∀ c ∈ l, p c = true) (x : Char) (hx : p x = false) (r : List Char) :
    (l ++ x :: r).takeWhile p = l := by
  induction l with
  | nil => simp [List.takeWhile, hx]
  | cons a as ih =>
    have ha : p a = true := h a (List.mem_cons_self a as)
    have ih2 := ih (fun c hc => h c (List.mem_cons_of_mem a hc))
    simp [List.takeWhile, ha, ih2]

theorem dropWhile_all_app (p : Char → Bool) (l : List Char)
    (h : ∀ c ∈ l, p c = true) (x : Char) (hx : p x = false) (r : List Char) :
    (l ++ x :: r).dropWhile p = x :: r := by
  induction l with
  | nil => simp [List.dropWhile, hx]
  | cons a as ih =>
    have ha : p a = true := h a (List.mem_cons_self a as)
    have ih2 := ih (fun c hc => h c (List.mem_cons_of_mem a hc))
    simp [List.dropWhile, ha, ih2]

theorem scanQuoted_quoted (s : String) (rest : List Char)
    (hne : s.data ≠ []) (hq : ∀ c ∈ s.data, ¬ c = '"') :
    scanQuoted ('"' :: (s.data ++ '"' :: rest)) = some (s.data, rest) := by
  have hall : ∀ c ∈ s.data, (decide (¬ c = '"')) = true := by
    intro c hc
    simp [hq c hc]
  have hstop : (decide (¬ ('"' : Char) = '"')) = false := by simp
  have hdrop := dropWhile_all_app (fun d => decide (¬ d = '"')) s.data hall '"' hstop rest
  have htake := takeWhile_all_app (fun d => decide (¬ d = '"')) s.data hall '"' hstop rest
  rw [scanQuoted, if_pos rfl, hdrop]
  show (if (List.takeWhile (fun d => decide (¬ d = '"'))
            (s.data ++ '"' :: rest)).isEmpty = true then none
        else some (List.takeWhile (fun d => decide (¬ d = '"'))
            (s.data ++ '"' :: rest), rest)) =
    some (s.data, rest)
  rw [htake]
  have hie : s.data.isEmpty = false := by
    cases hd : s.data with
    | nil => exact absurd hd hne
    | cons a as => rfl
  rw [hie]
  rfl

theorem skipWs_space (cs : List Char) : skipWs (' ' :: cs) = skipWs cs := rfl

theorem skipWs_quote (cs : List Char) : skipWs ('"' :: cs) = '"' :: cs := rfl

theorem collectOpt_sep (fuel : Nat) (ss : List String)
    (h : ∀ s ∈ ss, s.data ≠ [] ∧ ∀ c ∈ s.data, ¬ c = '"') :
    collectOpt fuel (sepQuoted ss) = ss.take fuel := by
  induction fuel generalizing ss with
  | zero => rfl
  | succ fuel ih =>
    cases ss with
    | nil => rfl
    | cons s rest =>
      obtain ⟨hne, hq⟩ := h s (List.mem_cons_self s rest)
      rw [sepQuoted, collectOpt]
      rw [show ((' ' : Char) :: '"' :: s.data) ++ ('"' :: sepQuoted rest) =
        ' ' :: ('"' :: (s.data ++ '"' :: sepQuoted rest)) from by simp]
      rw [skipWs_space, skipWs_quote, scanQuoted_quoted s (sepQuoted rest) hne hq]
      show String.mk s.data :: collectOpt fuel (sepQuoted rest) = (s :: rest).take (fuel + 1)
      rw [strMkData, ih rest (fun t ht => h t (List.mem_cons_of_mem s ht))]
      rfl

theorem searchPoll_quoted (q o : String) (rest : List String)
    (hq : plainStr q) (ho : o.data ≠ [] ∧ ∀ c ∈ o.data, ¬ c = '"')
    (hrest : ∀ s ∈ rest, s.data ≠ [] ∧ ∀ c ∈ s.data, ¬ c = '"') :
    searchPoll ('"' :: (q.data ++ '"' :: sepQuoted (o :: rest))) =
      some (q, o :: rest.take 3) := by
  have hmatch : matchPollAt ('"' :: (q.data ++ '"' :: sepQuoted (o :: rest))) =
      some (q, o :: rest.take 3) := by
    rw [matchPollAt, scanQuoted_quoted q (sepQuoted (o :: rest)) (plain_quote q hq).1
      (plain_quote q hq).2]
    show (match scanQuoted (skipWs (sepQuoted (o :: rest))) with
          | none => none
          | some (o1, rest2) => some (String.mk q.data, String.mk o1 :: collectOpt 3 rest2))
        = some (q, o :: rest.take 3)
    rw [show sepQuoted (o :: rest) = ' ' :: '"' :: (o.data ++ '"' :: sepQuoted rest) from rfl,
      skipWs_space, skipWs_quote, scanQuoted_quoted o (sepQuoted rest) ho.1 ho.2]
    show some (String.mk q.data, String.mk o.data :: collectOpt 3 (sepQuoted rest)) =
      some (q, o :: rest.take 3)
    rw [strMkData, strMkData, collectOpt_sep 3 rest hrest]
  rw [searchPoll, hmatch]

theorem joinSpace_quoted_data (q : String) (opts : List String) :
    (joinSpace (quoteStr q :: opts.map quoteStr)).data =
      '"' :: (q.data ++ '"' :: sepQuoted opts) := by
  induction opts generalizing q with
  | nil =>
    show (quoteStr q).data = _
    rw [quoteStr, strDataMk, sepQuoted]
    simp
  | cons o rest ih =>
    rw [List.map_cons, joinSpace, strDataApp, strDataApp, ih o, quoteStr, strDataMk]
    simp [sepQuoted]

/-- Claim C7: a poll command carrying a question and a single quoted option
is rejected with the at-least-two-options error and stores nothing, while a
question with two quoted options succeeds, initialises an empty voter set
per option, and the stored poll has the zero tally A zero B zero. -/
theorem C7_poll_create (polls : PollMap) (creator q id1 id2 : String)
    (hq : plainStr q) :
    cmd_poll polls creator [quoteStr q, quoteStr ("A")] id1 =
      (polls, PollCmdReply.needTwo) ∧
    cmd_poll polls creator [quoteStr q, quoteStr ("A"), quoteStr ("B")] id2 =
      (alistSet polls id2 ⟨q, ["A", "B"], [[], []], normalizeBare creator⟩,
       PollCmdReply.created id2 q ["A", "B"]) ∧
    pollTally ⟨q, ["A", "B"], [[], []], normalizeBare creator⟩ =
      [("A", 0), ("B", 0)] := by
  refine ⟨?_, ?_, rfl⟩
  · have hs : searchPoll (joinSpace [quoteStr q, quoteStr ("A")]).data =
        some (q, ["A"]) := by
      rw [show [quoteStr q, quoteStr ("A")] =
        quoteStr q :: [("A" : String)].map quoteStr from rfl]
      rw [joinSpace_quoted_data q [("A" : String)]]
      exact searchPoll_quoted q "A" [] hq (by decide) (by intro s hs; cases hs)
    rw [cmd_poll_eq_some polls creator _ id1 q ["A"] hs]
    rfl
  · have hs : searchPoll
        (joinSpace [quoteStr q, quoteStr ("A"), quoteStr ("B")]).data =
        some (q, ["A", "B"]) := by
      rw [show [quoteStr q, quoteStr ("A"), quoteStr ("B")] =
        quoteStr q :: [("A" : String), "B"].map quoteStr from rfl]
      rw [joinSpace_quoted_data q [("A" : String), "B"]]
      exact searchPoll_quoted q "A" ["B"] hq (by decide)
        (by intro s hs; rw [List.mem_singleton.mp hs]; exact ⟨by decide, by decide⟩)
    rw [cmd_poll_eq_some polls creator _ id2 q ["A", "B"] hs]
    rfl

/-- Claim C7, witness: the theorem applied at a concrete question. -/
theorem C7_witness :
    cmd_poll ([] : PollMap) ("15551234567") [quoteStr ("Q"), quoteStr ("A")] ("pw1") =
      ([], PollCmdReply.needTwo) ∧
    cmd_poll ([] : PollMap) ("15551234567")
        [quoteStr ("Q"), quoteStr ("A"), quoteStr ("B")] ("pw2") =
      (alistSet [] ("pw2") ⟨"Q", ["A", "B"], [[], []], normalizeBare ("15551234567")⟩,
       PollCmdReply.created ("pw2") ("Q") ["A", "B"]) ∧
    pollTally ⟨"Q", ["A", "B"], [[], []], normalizeBare ("15551234567")⟩ =
      [("A", 0), ("B", 0)] :=
  C7_poll_create [] "15551234567" "Q" "pw1" "pw2" (by decide)

/-- Claim C10: when the poll command supplies five or more quoted options
after the question, the poll is still created, only the first four options
are stored and tallied, and the creator gets the created reply, not an
error. -/
theorem C10_option_cap (polls : PollMap) (creator newId q : String)
    (opts : List String) (hq : plainStr q) (hopts : ∀ o ∈ opts, plainStr o)
    (hlen : 5 ≤ opts.length) :
    cmd_poll polls creator (quoteStr q :: opts.map quoteStr) newId =
      (alistSet polls newId
         ⟨q, opts.take 4, [[], [], [], []], normalizeBare creator⟩,
       PollCmdReply.created newId q (opts.take 4)) := by
  rcases opts with _ | ⟨o, _ | ⟨r1, _ | ⟨r2, _ | ⟨r3, rest⟩⟩⟩⟩
  · simp at hlen
  · simp at hlen
  · simp at hlen
  · simp at hlen
  have hs : searchPoll
      (joinSpace (quoteStr q :: (o :: r1 :: r2 :: r3 :: rest).map quoteStr)).data =
      some (q, [o, r1, r2, r3]) := by
    rw [joinSpace_quoted_data q (o :: r1 :: r2 :: r3 :: rest)]
    exact searchPoll_quoted q o (r1 :: r2 :: r3 :: rest) hq
      (plain_quote o (hopts o (List.mem_cons_self o _)))
      (fun s hsm => plain_quote s (hopts s (List.mem_cons_of_mem o hsm)))
  rw [cmd_poll_eq_some polls creator _ newId q [o, r1, r2, r3] hs]
  rfl

/-- Claim C10, witness: six quoted options yield a poll with only the first
four. -/
theorem C10_witness :
    cmd_poll ([] : PollMap) ("15551234567")
        (quoteStr ("Q") ::
          [("A" : String), "B", "C", "D", "E", "F"].map quoteStr) ("pw3") =
      (alistSet [] ("pw3")
         ⟨"Q", [("A" : String), "B", "C", "D", "E", "F"].take 4, [[], [], [], []],
          normalizeBare ("15551234567")⟩,
       PollCmdReply.created ("pw3") ("Q")
         ([("A" : String), "B", "C", "D", "E", "F"].take 4)) :=
  C10_option_cap [] "15551234567" "pw3" "Q" [("A" : String), "B", "C", "D", "E", "F"]
    (by decide) (by decide) (by decide)

/- ---------- claim C8 ---------- -/

theorem inboundText_ne_empty (userText msgType : String) :
    ¬ inboundText userText msgType = String.mk [] := by
  unfold inboundText
  by_cases h : userText = String.mk [] ∨ jsTrim userText = String.mk []
  · rw [if_pos h]
    unfold placeholderText
    intro he
    have hd := congrArg String.data he
    rw [strDataApp, strDataApp] at hd
    simp [strDataMk] at hd
  · rw [if_neg h]
    push_neg at h
    exact h.2

theorem append_user_get (maxM : Nat) (st : Store) (u t : String) (now : Nat)
    (ht : ¬ t = String.mk []) :
    ∃ s, alistGet (appendUserMessage maxM st u t now) u = some s := by
  unfold appendUserMessage
  rw [if_neg ht]
  refine ⟨⟨trimMessages maxM
      ((((alistGet (ensureSession st u now) u).getD ⟨[], 0⟩)).messages ++
        [⟨Role.user, t⟩]), now⟩, ?_⟩
  show alistGet
      (alistSet (ensureSession st u now) u
        ⟨trimMessages maxM
           ((((alistGet (ensureSession st u now) u).getD ⟨[], 0⟩)).messages ++
             [⟨Role.user, t⟩]), now⟩) u =
    some ⟨trimMessages maxM
       ((((alistGet (ensureSession st u now) u).getD ⟨[], 0⟩)).messages ++
         [⟨Role.user, t⟩]), now⟩
  rw [alistGet_alistSet]
  simp

theorem getConv_of_present (st : Store) (u : String) (now : Nat) (s : Session)
    (h : alistGet st u = some s) :
    getConversationForOpenAI st u now = (st, s.messages) := by
  simp only [getConversationForOpenAI, ensureSession, h]
  rfl

/-- Claim C8: when the completion call fails by transport error, missing
content or empty content, the webhook flow has still recorded the inbound
user message, appends no assistant message, and replies with the fixed
apology; and generateReply raises whenever the response carries no content. -/
theorem C8_completion_failure (maxM : Nat) (st : Store)
    (sender userText msgType : String) (resp : Except String (Option String))
    (now : Nat)
    (hfail : resp = Except.ok none ∨ resp = Except.ok (some (String.mk [])) ∨
      ∃ e, resp = Except.error e) :
    webhookProcess maxM st sender userText msgType resp now =
      (appendUserMessage maxM st sender (inboundText userText msgType) now,
       FALLBACK_APOLOGY) ∧
    (∀ ms : List Message,
      generateReply ms (Except.ok none) = Except.error NO_CONTENT_ERR) := by
  refine ⟨?_, fun ms => rfl⟩
  obtain ⟨s1, hs1⟩ := append_user_get maxM st sender (inboundText userText msgType) now
    (inboundText_ne_empty userText msgType)
  have hgen : ∃ e, generateReply s1.messages resp = Except.error e := by
    rcases hfail with h | h | ⟨e, h⟩
    · exact ⟨NO_CONTENT_ERR, by rw [h]; rfl⟩
    · exact ⟨NO_CONTENT_ERR, by rw [h]; rfl⟩
    · exact ⟨e, by rw [h]; rfl⟩
  obtain ⟨e, he⟩ := hgen
  simp only [webhookProcess,
    getConv_of_present (appendUserMessage maxM st sender
      (inboundText userText msgType) now) sender now s1 hs1, he]

/-- Claim C8, witness: a missing-content response at a concrete inbound
message. -/
theorem C8_witness :
    webhookProcess 12 ([] : Store) ("15551234567") ("hi") ("text")
        (Except.ok none) 7 =
      (appendUserMessage 12 ([] : Store) ("15551234567")
         (inboundText ("hi") ("text")) 7, FALLBACK_APOLOGY) ∧
    (∀ ms : List Message,
      generateReply ms (Except.ok none) = Except.error NO_CONTENT_ERR) :=
  C8_completion_failure 12 [] "15551234567" "hi" "text" (Except.ok none) 7
    (Or.inl rfl)
